import Mathlib

/-!
Verification of the hybrid retrieval and ranking engine of the
hackathon-backend repository against its natural-language specification.

The development shallowly embeds the Python sources:
  src/chunker.py    — sentence-based token-bounded segmentation with overlap,
  src/indexer.py    — the document record stored per chunk (build_index),
  src/retriever.py  — metadata filter extraction, hybrid search control flow,
                      reciprocal rank fusion, result assembly and confidence,
  src/config.py     — the constants the above read.

Modelling conventions, stated once here and referenced below:
 - tiktoken's count of a sentence is modelled by a per-sentence token count
   carried on the Sentence record; the count of a chunk (a space-join of whole
   sentences) is modelled as the sum of its sentences' counts.
 - re.split of a page into sentences is modelled by pages carrying their
   sentence list directly; no verified property depends on the splitter.
 - floating point scores are modelled as rationals; Python round(x, 4) is
   modelled by rounding to the nearest multiple of 1/10000.
 - the OpenSearch backend is modelled as a record of query functions
   (a search oracle); retrieval control flow is embedded faithfully over it.
-/

namespace Spec2Proof

/-! ## src/config.py — constants -/

def CHUNK_SIZE_TOKENS : Nat := 600

def CHUNK_OVERLAP_TOKENS : Nat := 100

def VECTOR_TOP_K : Nat := 15

def BM25_TOP_K : Nat := 15

def FINAL_TOP_K : Nat := 5

def RRF_K : Nat := 60

def HIGH_CONFIDENCE_THRESHOLD : ℚ := 80 / 100

def MEDIUM_CONFIDENCE_THRESHOLD : ℚ := 55 / 100

/-! ## SHA-256 (hashlib.sha256, as used by chunker._make_chunk_id)

A direct executable implementation over Nat with explicit reduction
mod 2^32, so that concrete chunk ids can be computed by the kernel. -/

def w32 (n : Nat) : Nat := n % 4294967296

def rotr32 (x n : Nat) : Nat := (x >>> n) ||| w32 (x <<< (32 - n))

def not32 (x : Nat) : Nat := x ^^^ 4294967295

def smallSigma0 (x : Nat) : Nat := rotr32 x 7 ^^^ rotr32 x 18 ^^^ (x >>> 3)

def smallSigma1 (x : Nat) : Nat := rotr32 x 17 ^^^ rotr32 x 19 ^^^ (x >>> 10)

def bigSigma0 (x : Nat) : Nat := rotr32 x 2 ^^^ rotr32 x 13 ^^^ rotr32 x 22

def bigSigma1 (x : Nat) : Nat := rotr32 x 6 ^^^ rotr32 x 11 ^^^ rotr32 x 25

def chFn (x y z : Nat) : Nat := (x &&& y) ^^^ (not32 x &&& z)

def majFn (x y z : Nat) : Nat := (x &&& y) ^^^ (x &&& z) ^^^ (y &&& z)

/-- The 64 round constants of FIPS 180-2, written in decimal. -/
def sha256K : List Nat :=
  [1116352408, 1899447441, 3049323471, 3921009573, 961987163,
   1508970993, 2453635748, 2870763221, 3624381080, 310598401,
   607225278, 1426881987, 1925078388, 2162078206, 2614888103,
   3248222580, 3835390401, 4022224774, 264347078, 604807628,
   770255983, 1249150122, 1555081692, 1996064986, 2554220882,
   2821834349, 2952996808, 3210313671, 3336571891, 3584528711,
   113926993, 338241895, 666307205, 773529912, 1294757372,
   1396182291, 1695183700, 1986661051, 2177026350, 2456956037,
   2730485921, 2820302411, 3259730800, 3345764771, 3516065817,
   3600352804, 4094571909, 275423344, 430227734, 506948616,
   659060556, 883997877, 958139571, 1322822218, 1537002063,
   1747873779, 1955562222, 2024104815, 2227730452, 2361852424,
   2428436474, 2756734187, 3204031479, 3329325298]

structure Sha256State where
  a : Nat
  b : Nat
  c : Nat
  d : Nat
  e : Nat
  f : Nat
  g : Nat
  h : Nat

/-- The eight initial hash words of FIPS 180-2, written in decimal. -/
def sha256Init : Sha256State :=
  ⟨1779033703, 3144134277, 1013904242, 2773480762,
   1359893119, 2600822924, 528734635, 1541459225⟩

def scheduleGo : Nat → List Nat → List Nat
  | 0, ws => ws
  | n + 1, ws =>
    let i := ws.length
    let nw := w32 (smallSigma1 (ws.get! (i - 2)) + ws.get! (i - 7) +
                   smallSigma0 (ws.get! (i - 15)) + ws.get! (i - 16))
    scheduleGo n (ws ++ [nw])

def schedule (ws16 : List Nat) : List Nat := scheduleGo 48 ws16

def compressRound (st : Sha256State) (kw : Nat) : Sha256State :=
  let t1 := w32 (st.h + bigSigma1 st.e + chFn st.e st.f st.g + kw)
  let t2 := w32 (bigSigma0 st.a + majFn st.a st.b st.c)
  ⟨w32 (t1 + t2), st.a, st.b, st.c, w32 (st.d + t1), st.e, st.f, st.g⟩

def compressBlock (hs : Sha256State) (block : List Nat) : Sha256State :=
  let kws := (sha256K.zip (schedule block)).map fun p => w32 (p.1 + p.2)
  let fin := kws.foldl compressRound hs
  ⟨w32 (hs.a + fin.a), w32 (hs.b + fin.b), w32 (hs.c + fin.c), w32 (hs.d + fin.d),
   w32 (hs.e + fin.e), w32 (hs.f + fin.f), w32 (hs.g + fin.g), w32 (hs.h + fin.h)⟩

def lenBytes64BE (n : Nat) : List Nat :=
  (List.range 8).map fun i => (n >>> (8 * (7 - i))) % 256

def padMessage (msg : List Nat) : List Nat :=
  let z := (119 - (msg.length % 64)) % 64
  msg ++ [0x80] ++ List.replicate z 0 ++ lenBytes64BE (8 * msg.length)

def bytesToWords : List Nat → List Nat
  | b0 :: b1 :: b2 :: b3 :: rest =>
    (((b0 * 256 + b1) * 256 + b2) * 256 + b3) :: bytesToWords rest
  | _ => []

def blocks16Go : Nat → List Nat → List (List Nat)
  | 0, _ => []
  | _, [] => []
  | fuel + 1, w :: rest => ((w :: rest).take 16) :: blocks16Go fuel ((w :: rest).drop 16)

def blocks16 (ws : List Nat) : List (List Nat) := blocks16Go ws.length ws

def stateWords (st : Sha256State) : List Nat :=
  [st.a, st.b, st.c, st.d, st.e, st.f, st.g, st.h]

def wordBytesBE (w : Nat) : List Nat :=
  [(w >>> 24) % 256, (w >>> 16) % 256, (w >>> 8) % 256, w % 256]

def hexDigitCh (n : Nat) : Char :=
  if n < 10 then Char.ofNat (48 + n) else Char.ofNat (87 + n)

def byteHexChars (b : Nat) : List Char := [hexDigitCh (b / 16), hexDigitCh (b % 16)]

def utf8Encode (c : Char) : List Nat :=
  let n := c.toNat
  if n < 0x80 then [n]
  else if n < 0x800 then [0xC0 + n / 64, 0x80 + n % 64]
  else if n < 0x10000 then [0xE0 + n / 4096, 0x80 + (n / 64) % 64, 0x80 + n % 64]
  else [0xF0 + n / 262144, 0x80 + (n / 4096) % 64, 0x80 + (n / 64) % 64, 0x80 + n % 64]

def strBytes (s : String) : List Nat := (s.data.map utf8Encode).flatten

def sha256Digest (msg : List Nat) : List Nat :=
  let final := (blocks16 (bytesToWords (padMessage msg))).foldl compressBlock sha256Init
  ((stateWords final).map wordBytesBE).flatten

def sha256Hexdigest (s : String) : String :=
  String.mk (((sha256Digest (strBytes s)).map byteHexChars).flatten)

/-- Test vector: sha256 of the three-byte string abc, checking the embedding
of hashlib.sha256 against the published FIPS 180-2 value. -/
theorem sha256_abc_test_vector :
    sha256Hexdigest "abc" =
      "ba7816bf8f01cfea414140de5dae2223b00361a396177a9cb410ff61f20015ad" := by
  decide

/-! ## String helpers shared by chunker.py and retriever.py

Python lowercasing and substring containment, over character lists. -/

def lowerStr (s : String) : String := String.mk (s.data.map Char.toLower)

def leadsWith : List Char → List Char → Bool
  | [], _ => true
  | _ :: _, [] => false
  | a :: as, b :: bs => a = b && leadsWith as bs

def subIn (pat : List Char) : List Char → Bool
  | [] => pat.isEmpty
  | c :: rest => leadsWith pat (c :: rest) || subIn pat rest

/-- Python kw in s (substring containment). -/
def strContainsSub (s pat : String) : Bool := subIn pat.data s.data

/-- Python s.endswith(pat). -/
def strEndsWith (s pat : String) : Bool := leadsWith pat.data.reverse s.data.reverse

/-! ## src/chunker.py — data model

A Sentence is one element of the list produced by chunker._split_sentences,
carrying its tiktoken count (see the modelling conventions above). A page is
its 1-based page number plus its sentence list; a Document is the extractor
contract filename / pages / full_text. -/

structure Sentence where
  text : String
  tokens : Nat
deriving DecidableEq

structure PageInfo where
  page : Nat
  sentences : List Sentence
deriving DecidableEq

structure Document where
  filename : String
  pages : List PageInfo
  full_text : String
deriving DecidableEq

def sumTokens (ss : List Sentence) : Nat := (ss.map Sentence.tokens).sum

def joinSentences (ss : List Sentence) : String :=
  String.intercalate " " (ss.map Sentence.text)

/-! ## src/chunker.py — metadata extraction -/

/-- chunker.REGION_KEYWORDS, in the dict's insertion order. -/
def REGION_KEYWORDS : List (String × List String) :=
  [("south india",
    ["tamil nadu", "chennai", "karnataka", "bangalore", "bengaluru",
     "kerala", "kochi", "thiruvananthapuram", "andhra pradesh",
     "hyderabad", "telangana", "south india", "coimbatore", "mysore",
     "madurai", "visakhapatnam", "vijayawada"]),
   ("north india",
    ["delhi", "ncr", "uttar pradesh", "haryana", "gurgaon", "gurugram",
     "noida", "punjab", "rajasthan", "north india", "lucknow", "jaipur",
     "chandigarh"]),
   ("west india",
    ["mumbai", "maharashtra", "pune", "gujarat", "ahmedabad",
     "surat", "goa", "west india"]),
   ("east india",
    ["kolkata", "west bengal", "odisha", "bhubaneswar",
     "bihar", "jharkhand", "east india"])]

/-- chunker._extract_doc_type: ordered keyword rules over the lowercased
filename, then a .docx extension fallback. -/
def extractDocType (filename : String) : String :=
  let fn := lowerStr filename
  if ["case study", "case-study", "case_study", "case studies",
      "success story", "success stories", " ss ", "ss_",
      "gadgeon ss", "gadgeon_ss"].any (fun kw => strContainsSub fn kw) then "case_study"
  else if ["whitepaper", "white paper", "white-paper"].any
      (fun kw => strContainsSub fn kw) then "whitepaper"
  else if ["proposal"].any (fun kw => strContainsSub fn kw) then "proposal"
  else if ["pitch", "deck"].any (fun kw => strContainsSub fn kw) then "pitch_deck"
  else if ["offering", "services", "overview", "corp overview",
           "engineering stack", "delivery model",
           "execution", "governance"].any (fun kw => strContainsSub fn kw) then
    "service_presentation"
  else if strEndsWith fn ".docx" then "whitepaper"
  else "unknown"

def isDigitCh (c : Char) : Bool := 48 ≤ c.toNat && c.toNat ≤ 57

/-- One attempt of the regex 20[1-2]\d at the head of the character list. -/
def yearAtHead : List Char → Option String
  | c0 :: c1 :: c2 :: c3 :: _ =>
    if c0 = '2' ∧ c1 = '0' ∧ (c2 = '1' ∨ c2 = '2') ∧ isDigitCh c3 then
      some (String.mk [c0, c1, c2, c3])
    else none
  | _ => none

/-- re.search of 20[1-2]\d: leftmost match. -/
def findYearPlain : List Char → Option String
  | [] => none
  | c :: rest =>
    match yearAtHead (c :: rest) with
    | some y => some y
    | none => findYearPlain rest

/-- chunker._extract_year: the year pattern searched in the filename first,
then in the first 500 characters of the document's full text. -/
def extractYear (filename : String) (textHead : String) : Option String :=
  match findYearPlain filename.data with
  | some y => some y
  | none => findYearPlain (textHead.data.take 500)

/-- REGION_KEYWORDS sorted by region name, so that filtering it reproduces
Python's sorted(found-set) in chunker._extract_regions. -/
def REGION_KEYWORDS_SORTED : List (String × List String) :=
  [("east india",
    ["kolkata", "west bengal", "odisha", "bhubaneswar",
     "bihar", "jharkhand", "east india"]),
   ("north india",
    ["delhi", "ncr", "uttar pradesh", "haryana", "gurgaon", "gurugram",
     "noida", "punjab", "rajasthan", "north india", "lucknow", "jaipur",
     "chandigarh"]),
   ("south india",
    ["tamil nadu", "chennai", "karnataka", "bangalore", "bengaluru",
     "kerala", "kochi", "thiruvananthapuram", "andhra pradesh",
     "hyderabad", "telangana", "south india", "coimbatore", "mysore",
     "madurai", "visakhapatnam", "vijayawada"]),
   ("west india",
    ["mumbai", "maharashtra", "pune", "gujarat", "ahmedabad",
     "surat", "goa", "west india"])]

/-- chunker._extract_regions: case-insensitive keyword scan of the full text,
returning the sorted list of matching region names. -/
def extractRegions (text : String) : List String :=
  let lower := lowerStr text
  (REGION_KEYWORDS_SORTED.filter
    (fun p => p.2.any (fun kw => strContainsSub lower kw))).map Prod.fst

/-! ## src/chunker.py — chunk_document -/

/-- The chunk record emitted by chunker.chunk_document. The sentences field
is the ghost sentence list the chunk was joined from (the source keeps only
the joined chunk_text); token_count is the modelled tiktoken count. -/
structure Chunk where
  chunk_id : String
  chunk_text : String
  sentences : List Sentence
  filename : String
  doc_type : String
  year : Option String
  page : Nat
  regions : List String
  token_count : Nat
deriving DecidableEq

/-- chunker._make_chunk_id: the first 16 hex characters of the sha256 of
filename::p{page}::c{idx}. -/
def makeChunkId (filename : String) (page : Nat) (idx : Nat) : String :=
  let raw := filename ++ "::p" ++ toString page ++ "::c" ++ toString idx
  String.mk ((sha256Hexdigest raw).data.take 16)

def mkChunk (fn dt : String) (yr : Option String) (rg : List String)
    (pg idx : Nat) (cur : List Sentence) : Chunk :=
  { chunk_id := makeChunkId fn pg idx
    chunk_text := joinSentences cur
    sentences := cur
    filename := fn
    doc_type := dt
    year := yr
    page := pg
    regions := rg
    token_count := sumTokens cur }

/-- The overlap walk of chunk_document: traverse the just-emitted sentence
list in reverse, prepending whole sentences while the running total stays
within CHUNK_OVERLAP_TOKENS. -/
def overlapGo : List Sentence → List Sentence → Nat → List Sentence
  | [], acc, _ => acc
  | s :: rest, acc, tks =>
    if CHUNK_OVERLAP_TOKENS < tks + s.tokens then acc
    else overlapGo rest (s :: acc) (tks + s.tokens)

def overlapTail (ss : List Sentence) : List Sentence := overlapGo ss.reverse [] 0

/-- The per-sentence loop of chunk_document, for one page: the state is the
chunk list accumulated so far across the whole document (Python appends into
one list), the current sentence buffer, and its running token total. -/
def chunkLoop (fn dt : String) (yr : Option String) (rg : List String) (pg : Nat) :
    List Sentence → List Chunk → List Sentence → Nat →
    List Chunk × List Sentence × Nat
  | [], chunks, cur, curTok => (chunks, cur, curTok)
  | s :: rest, chunks, cur, curTok =>
    if CHUNK_SIZE_TOKENS < curTok + s.tokens ∧ cur ≠ [] then
      let c := mkChunk fn dt yr rg pg chunks.length cur
      let ov := overlapTail cur
      chunkLoop fn dt yr rg pg rest (chunks ++ [c]) (ov ++ [s]) (sumTokens ov + s.tokens)
    else
      chunkLoop fn dt yr rg pg rest chunks (cur ++ [s]) (curTok + s.tokens)

/-- One iteration of chunk_document's page loop: run the sentence loop with
an empty buffer, then emit the remaining buffer if non-empty. -/
def chunkPage (fn dt : String) (yr : Option String) (rg : List String)
    (chunks : List Chunk) (pi : PageInfo) : List Chunk :=
  let res := chunkLoop fn dt yr rg pi.page pi.sentences chunks [] 0
  if res.2.1 ≠ [] then
    res.1 ++ [mkChunk fn dt yr rg pi.page res.1.length res.2.1]
  else res.1

def chunkPagesGo (fn dt : String) (yr : Option String) (rg : List String) :
    List PageInfo → List Chunk → List Chunk
  | [], chunks => chunks
  | p :: ps, chunks => chunkPagesGo fn dt yr rg ps (chunkPage fn dt yr rg chunks p)

/-- chunker.chunk_document: document-level metadata inferred once, then the
page/sentence accumulation loop. -/
def chunkDocument (doc : Document) : List Chunk :=
  chunkPagesGo doc.filename (extractDocType doc.filename)
    (extractYear doc.filename doc.full_text) (extractRegions doc.full_text)
    doc.pages []

/-! ## src/indexer.py — the record build_index stores per chunk

The embedding vector and the OpenSearch transport are external; the stored
source document (everything the retriever later reads back) is embedded. -/

structure IndexedDoc where
  text : String
  chunk_id : String
  filename : String
  doc_type : String
  year : String
  page : Nat
  regions : List String
  drive_link : String
deriving DecidableEq

/-- The expression chunk.get(year) or unknown from build_index: Python or
falls through to unknown for None and for the empty string. -/
def yearOrUnknown : Option String → String
  | none => "unknown"
  | some s => if s = "" then "unknown" else s

/-- The document build_index writes for one chunk (minus the embedding
vector); link is the drive-links cache entry for the chunk's filename. -/
def toIndexedDoc (c : Chunk) (link : String) : IndexedDoc :=
  { text := c.chunk_text
    chunk_id := c.chunk_id
    filename := c.filename
    doc_type := c.doc_type
    year := yearOrUnknown c.year
    page := c.page
    regions := c.regions
    drive_link := link }

/-! ## src/retriever.py — metadata filter extraction -/

def isWordCh (c : Char) : Bool :=
  (48 ≤ c.toNat && c.toNat ≤ 57) || (65 ≤ c.toNat && c.toNat ≤ 90) ||
    (97 ≤ c.toNat && c.toNat ≤ 122) || c = '_'

/-- Word-boundary test before the match: start of string, or a non-word
character. -/
def boundaryBeforeOk : Option Char → Bool
  | none => true
  | some p => !isWordCh p

/-- Word-boundary test after the match: end of string, or a non-word
character next. -/
def boundaryAfterOk : List Char → Bool
  | [] => true
  | r :: _ => !isWordCh r

/-- One attempt of the word-bounded regex from retriever, 20[1-2]\d between
word boundaries, at the head of the character list; prev is the character
just before the head, if any. -/
def yearAtBounded (prev : Option Char) : List Char → Option String
  | c0 :: c1 :: c2 :: c3 :: rest =>
    if boundaryBeforeOk prev = true ∧ c0 = '2' ∧ c1 = '0' ∧
        (c2 = '1' ∨ c2 = '2') ∧ isDigitCh c3 = true ∧
        boundaryAfterOk rest = true then
      some (String.mk [c0, c1, c2, c3])
    else none
  | _ => none

/-- re.search of the word-bounded year pattern: leftmost match. -/
def findYearBounded (prev : Option Char) : List Char → Option String
  | [] => none
  | c :: rest =>
    match yearAtBounded prev (c :: rest) with
    | some y => some y
    | none => findYearBounded (some c) rest

/-- The doc-type keyword groups of retriever._extract_metadata_filters, in
their if/elif order over the lowercased query. -/
def queryDocType (ql : String) : Option String :=
  if ["case study", "case studies", "case-study", "success story",
      "success stories"].any (fun kw => strContainsSub ql kw) then some "case_study"
  else if ["whitepaper", "white paper", "whitepapers", "white papers"].any
      (fun kw => strContainsSub ql kw) then some "whitepaper"
  else if ["proposal", "proposals"].any (fun kw => strContainsSub ql kw) then
    some "proposal"
  else if ["pitch", "deck", "pitch deck"].any (fun kw => strContainsSub ql kw) then
    some "pitch_deck"
  else if ["service presentation", "offerings", "service overview"].any
      (fun kw => strContainsSub ql kw) then some "service_presentation"
  else none

/-- The region loop of retriever._extract_metadata_filters: first region of
REGION_KEYWORDS (dict order) with a keyword contained in the query. -/
def queryRegion (ql : String) : Option String :=
  (REGION_KEYWORDS.find? (fun p => p.2.any (fun kw => strContainsSub ql kw))).map
    Prod.fst

/-- The three optional filter values of retriever._extract_metadata_filters.
Note the year regex runs on the raw query, the keyword groups on the
lowercased query, as in the source. -/
structure Filters where
  year : Option String
  doc_type : Option String
  region : Option String
deriving DecidableEq

def extractMetadataFilters (q : String) : Filters :=
  { year := findYearBounded none q.data
    doc_type := queryDocType (lowerStr q)
    region := queryRegion (lowerStr q) }

/-- retriever._build_opensearch_filter: None when no filter value is set,
otherwise the filter clause; the OpenSearch term/bool syntax is modelled by
the filter values the clause contains. -/
def buildOpenSearchFilter (f : Filters) : Option Filters :=
  if f.year = none ∧ f.doc_type = none ∧ f.region = none then none else some f

/-! ## src/retriever.py — reciprocal rank fusion -/

/-- One defaultdict accumulation of _reciprocal_rank_fusion: add inc to the
entry of cid, inserting it at the back on first touch (Python dicts keep
insertion order, which the final stable sort relies on for ties). -/
def addRRF (acc : List (String × ℚ)) (cid : String) (inc : ℚ) :
    List (String × ℚ) :=
  if acc.any (fun p => p.1 = cid) then
    acc.map (fun p => if p.1 = cid then (p.1, p.2 + inc) else p)
  else acc ++ [(cid, inc)]

/-- One enumerate loop of _reciprocal_rank_fusion: item at 0-based rank
contributes 1 / (k + rank + 1), raw scores ignored. -/
def rrfAdd (k : ℚ) : Nat → List (String × ℚ) → List (String × ℚ) →
    List (String × ℚ)
  | _, acc, [] => acc
  | rank, acc, (cid, _) :: rest =>
    rrfAdd k (rank + 1) (addRRF acc cid (1 / (k + (rank : ℚ) + 1))) rest

/-- Descending-by-score order used by sorted(..., reverse=True). -/
def scoreGe (x y : String × ℚ) : Prop := y.2 ≤ x.2

instance : DecidableRel scoreGe := fun x y => inferInstanceAs (Decidable (y.2 ≤ x.2))

instance : IsTotal (String × ℚ) scoreGe := ⟨fun a b => le_total b.2 a.2⟩

instance : IsTrans (String × ℚ) scoreGe := ⟨fun _ _ _ h1 h2 => le_trans h2 h1⟩

/-- retriever._reciprocal_rank_fusion: accumulate both enumerate loops
(vector list first), then sort descending by fused score; insertion sort is
stable, matching Python's sorted with reverse=True on insertion order. -/
def reciprocalRankFusion (vec bm : List (String × ℚ)) (k : ℚ) :
    List (String × ℚ) :=
  List.insertionSort scoreGe (rrfAdd k 0 (rrfAdd k 0 [] vec) bm)

/-! ## src/retriever.py — retrieve and compute_confidence -/

/-- Python round(x, 4): nearest multiple of 1/10000. -/
def round4 (q : ℚ) : ℚ := (round (q * 10000) : ℤ) / 10000

/-- dict(list).get(cid, 0.0): the last binding of cid wins, absent keys give
0; models vector_score_map.get in retrieve. -/
def pyDictLookup (l : List (String × ℚ)) (cid : String) : ℚ :=
  match l.reverse.find? (fun p => p.1 = cid) with
  | some p => p.2
  | none => 0

/-- The OpenSearch backend as seen by retrieve: the two search paths (query,
optional filter clause, size) and the batch hydration of a chunk id to its
stored document, plus indexer.get_drive_link. -/
structure SearchBackend where
  vectorSearch : String → Option Filters → Nat → List (String × ℚ)
  bm25Search : String → Option Filters → Nat → List (String × ℚ)
  fetchDoc : String → Option IndexedDoc
  driveLink : String → Option String

/-- Steps 1-3 of retrieve: extract filters, run both searches with them, and
clear the filters and re-run both paths when both came back empty. -/
def candidateLists (b : SearchBackend) (q : String) :
    List (String × ℚ) × List (String × ℚ) :=
  let osf := buildOpenSearchFilter (extractMetadataFilters q)
  let v := b.vectorSearch q osf VECTOR_TOP_K
  let bm := b.bm25Search q osf BM25_TOP_K
  if v = [] ∧ bm = [] ∧ osf ≠ none then
    (b.vectorSearch q none VECTOR_TOP_K, b.bm25Search q none BM25_TOP_K)
  else (v, bm)

/-- One result dict of retrieve's step 5. -/
structure RetrievedResult where
  chunk_id : String
  chunk_text : String
  filename : String
  doc_type : String
  year : String
  page : Nat
  regions : List String
  relevance_score : ℚ
  rrf_score : ℚ
  drive_link : Option String
deriving DecidableEq

/-- The body of retrieve's assembly loop for one fused (chunk_id, rrf_score)
pair: skip ids the batch fetch did not hydrate, otherwise copy the stored
fields and attach the rounded semantic and fused scores. -/
def assembleResult (b : SearchBackend) (v : List (String × ℚ))
    (p : String × ℚ) : Option RetrievedResult :=
  match b.fetchDoc p.1 with
  | none => none
  | some src =>
    some { chunk_id := p.1
           chunk_text := src.text
           filename := src.filename
           doc_type := src.doc_type
           year := src.year
           page := src.page
           regions := src.regions
           relevance_score := round4 (pyDictLookup v p.1)
           rrf_score := round4 p.2
           drive_link := b.driveLink src.filename }

/-- Steps 4-5 of retrieve, given the two candidate lists actually used. -/
def retrieveFrom (b : SearchBackend) (v bm : List (String × ℚ))
    (top_k : Nat) : List RetrievedResult :=
  ((reciprocalRankFusion v bm (RRF_K : ℚ)).take top_k).filterMap
    (assembleResult b v)

/-- retriever.retrieve. -/
def retrieve (b : SearchBackend) (q : String) (top_k : Nat) :
    List RetrievedResult :=
  retrieveFrom b (candidateLists b q).1 (candidateLists b q).2 top_k

/-- The same pipeline for a query carrying no filter at all: both search
paths run with the filter clause cleared. -/
def retrieveUnfiltered (b : SearchBackend) (q : String) (top_k : Nat) :
    List RetrievedResult :=
  retrieveFrom b (b.vectorSearch q none VECTOR_TOP_K)
    (b.bm25Search q none BM25_TOP_K) top_k

/-- The mean of the relevance scores of the first min(3, length) results. -/
def topAvg (results : List RetrievedResult) : ℚ :=
  ((results.take 3).map RetrievedResult.relevance_score).sum /
    (((results.take 3).length : ℚ))

/-- retriever.compute_confidence. -/
def computeConfidence (results : List RetrievedResult) : String × ℚ :=
  match results with
  | [] => ("low", 0)
  | _ :: _ =>
    (if HIGH_CONFIDENCE_THRESHOLD ≤ topAvg results then "high"
     else if MEDIUM_CONFIDENCE_THRESHOLD ≤ topAvg results then "medium"
     else "low",
     round4 (topAvg results))

/-! ## Reciprocal rank fusion: positional-score characterization -/

/-- The fused score recorded for cid (0 when cid is absent). -/
def rrfScoreOf (l : List (String × ℚ)) (cid : String) : ℚ :=
  match l.find? (fun p => p.1 = cid) with
  | some p => p.2
  | none => 0

/-- The contribution of one candidate list to cid in RRF, starting the
enumeration at rank r: 1 / (k + rank + 1) at cid's 0-based position, 0 when
absent. -/
def rrfContributionFrom (k : ℚ) (r : Nat) (l : List (String × ℚ))
    (cid : String) : ℚ :=
  match l.findIdx? (fun p => p.1 = cid) with
  | some i => 1 / (k + ((r + i : Nat) : ℚ) + 1)
  | none => 0

/-- The contribution of one candidate list to cid in RRF. -/
def rrfContribution (k : ℚ) (l : List (String × ℚ)) (cid : String) : ℚ :=
  rrfContributionFrom k 0 l cid

theorem find?_map_rrfUpdate (l : List (String × ℚ)) (cid cid' : String)
    (inc : ℚ) (hne : cid' ≠ cid) :
    (l.map (fun p => if p.1 = cid then (p.1, p.2 + inc) else p)).find?
        (fun p => p.1 = cid') = l.find? (fun p => p.1 = cid') := by
  induction l with
  | nil => rfl
  | cons x xs ih =>
    by_cases hx : x.1 = cid
    · have hx' : ¬ x.1 = cid' := fun h => hne (h ▸ hx)
      simp only [List.map_cons, if_pos hx, List.find?]
      simp only [hx', decide_False]
      exact ih
    · simp only [List.map_cons, if_neg hx, List.find?]
      by_cases hx2 : x.1 = cid'
      · simp [hx2]
      · simp only [hx2, decide_False]
        exact ih

theorem find?_map_rrfUpdate_self (l : List (String × ℚ)) (cid : String)
    (inc : ℚ) :
    (l.map (fun p => if p.1 = cid then (p.1, p.2 + inc) else p)).find?
        (fun p => p.1 = cid) =
      (l.find? (fun p => p.1 = cid)).map (fun p => (p.1, p.2 + inc)) := by
  induction l with
  | nil => rfl
  | cons x xs ih =>
    by_cases hx : x.1 = cid
    · simp [List.find?, hx]
    · simp only [List.map_cons, if_neg hx, List.find?]
      simp only [hx, decide_False]
      exact ih

theorem rrfScoreOf_addRRF_self (acc : List (String × ℚ)) (cid : String)
    (inc : ℚ) :
    rrfScoreOf (addRRF acc cid inc) cid = rrfScoreOf acc cid + inc := by
  by_cases hmem : acc.any (fun p => p.1 = cid)
  · rw [addRRF, if_pos hmem, rrfScoreOf, find?_map_rrfUpdate_self, rrfScoreOf]
    obtain ⟨p, hp, hkey⟩ := List.any_eq_true.mp hmem
    obtain ⟨q, hq⟩ : ∃ q, acc.find? (fun p => p.1 = cid) = some q := by
      rcases h : acc.find? (fun p => p.1 = cid) with _ | q
      · rw [List.find?_eq_none] at h
        exact absurd hkey (by simpa using h p hp)
      · exact ⟨q, h⟩
    rw [hq]
    rfl
  · rw [addRRF, if_neg hmem, rrfScoreOf, rrfScoreOf]
    have hnone : acc.find? (fun p => p.1 = cid) = none := by
      rw [List.find?_eq_none]
      intro p hp
      simp only [List.any_eq_true, not_exists, not_and] at hmem
      simpa using hmem p hp
    rw [List.find?_append, hnone, Option.none_or]
    simp [List.find?]

theorem rrfScoreOf_addRRF_other (acc : List (String × ℚ)) (cid cid' : String)
    (inc : ℚ) (hne : cid' ≠ cid) :
    rrfScoreOf (addRRF acc cid inc) cid' = rrfScoreOf acc cid' := by
  by_cases hmem : acc.any (fun p => p.1 = cid)
  · rw [addRRF, if_pos hmem, rrfScoreOf, find?_map_rrfUpdate _ _ _ _ hne, rrfScoreOf]
  · rw [addRRF, if_neg hmem, rrfScoreOf, List.find?_append, rrfScoreOf]
    have hn : ¬ (cid = cid') := fun h => hne h.symm
    have hone : List.find? (fun p => p.1 = cid') [(cid, inc)] = none := by
      simp [List.find?, hn]
    rw [hone, Option.or_none]

theorem rrfScoreOf_rrfAdd_not_mem (k : ℚ) (l : List (String × ℚ))
    (cid : String) (hcid : cid ∉ l.map Prod.fst) :
    ∀ (r : Nat) (acc : List (String × ℚ)),
      rrfScoreOf (rrfAdd k r acc l) cid = rrfScoreOf acc cid := by
  induction l with
  | nil => intro r acc; rfl
  | cons x rest ih =>
    intro r acc
    obtain ⟨c0, s0⟩ := x
    have h1 : cid ∉ rest.map Prod.fst := fun h => hcid (List.mem_cons_of_mem _ h)
    have h2 : cid ≠ c0 := fun h => hcid (by simp [h])
    rw [rrfAdd, ih h1, rrfScoreOf_addRRF_other _ _ _ _ h2]

theorem rrfContributionFrom_cons_ne (k : ℚ) (r : Nat) (c0 : String) (s0 : ℚ)
    (rest : List (String × ℚ)) (cid : String) (hc : ¬ c0 = cid) :
    rrfContributionFrom k r ((c0, s0) :: rest) cid =
      rrfContributionFrom k (r + 1) rest cid := by
  rw [rrfContributionFrom, rrfContributionFrom]
  simp only [List.findIdx?_cons, decide_eq_true_eq, if_neg hc,
    List.findIdx?_start_succ]
  rcases h : rest.findIdx? (fun p => decide (p.1 = cid)) with _ | i
  · rw [h]
    simp
  · rw [h]
    show (1 : ℚ) / (k + ((r + (i + (0 + 1)) : Nat) : ℚ) + 1) =
      1 / (k + (((r + 1) + i : Nat) : ℚ) + 1)
    have hcast : (r + (i + (0 + 1)) : Nat) = ((r + 1) + i : Nat) := by omega
    rw [hcast]

theorem rrfScoreOf_rrfAdd (k : ℚ) (l : List (String × ℚ)) (cid : String)
    (hnd : (l.map Prod.fst).Nodup) :
    ∀ (r : Nat) (acc : List (String × ℚ)),
      rrfScoreOf (rrfAdd k r acc l) cid =
        rrfScoreOf acc cid + rrfContributionFrom k r l cid := by
  induction l with
  | nil =>
    intro r acc
    rw [rrfAdd, rrfContributionFrom]
    simp
  | cons x rest ih =>
    intro r acc
    obtain ⟨c0, s0⟩ := x
    rw [List.map_cons, List.nodup_cons] at hnd
    by_cases hc : c0 = cid
    · subst hc
      rw [rrfAdd, rrfScoreOf_rrfAdd_not_mem k rest _ hnd.1,
        rrfScoreOf_addRRF_self]
      rw [rrfContributionFrom]
      simp only [List.findIdx?_cons, decide_eq_true_eq, if_pos rfl]
      norm_num
    · have hc' : cid ≠ c0 := fun h => hc h.symm
      rw [rrfAdd, ih hnd.2 (r + 1), rrfScoreOf_addRRF_other _ _ _ _ hc',
        rrfContributionFrom_cons_ne k r c0 s0 rest cid hc]

theorem keys_addRRF_nodup (acc : List (String × ℚ)) (cid : String) (inc : ℚ)
    (hnd : (acc.map Prod.fst).Nodup) :
    ((addRRF acc cid inc).map Prod.fst).Nodup := by
  by_cases hmem : acc.any (fun p => p.1 = cid)
  · rw [addRRF, if_pos hmem]
    have hkeys : (acc.map (fun p => if p.1 = cid then (p.1, p.2 + inc) else p)).map
        Prod.fst = acc.map Prod.fst := by
      rw [List.map_map]
      apply List.map_congr_left
      intro p _
      by_cases hp : p.1 = cid <;> simp [hp]
    rw [hkeys]
    exact hnd
  · rw [addRRF, if_neg hmem, List.map_append]
    simp only [List.map_cons, List.map_nil]
    rw [List.nodup_append]
    refine ⟨hnd, List.nodup_singleton cid, ?_⟩
    intro a ha hb
    simp only [List.mem_singleton] at hb
    subst hb
    obtain ⟨p, hp, hpk⟩ := List.mem_map.mp ha
    simp only [List.any_eq_true, not_exists, not_and] at hmem
    exact absurd hpk (by simpa using hmem p hp)

theorem keys_rrfAdd_nodup (k : ℚ) (l : List (String × ℚ)) :
    ∀ (r : Nat) (acc : List (String × ℚ)), (acc.map Prod.fst).Nodup →
      ((rrfAdd k r acc l).map Prod.fst).Nodup := by
  induction l with
  | nil => intro r acc h; exact h
  | cons x rest ih =>
    intro r acc h
    obtain ⟨c0, s0⟩ := x
    exact ih (r + 1) _ (keys_addRRF_nodup acc c0 _ h)

theorem mem_keys_addRRF (acc : List (String × ℚ)) (cid : String) (inc : ℚ)
    (a : String) (ha : a ∈ (addRRF acc cid inc).map Prod.fst) :
    a ∈ acc.map Prod.fst ∨ a = cid := by
  obtain ⟨q, hq, hqa⟩ := List.mem_map.mp ha
  subst hqa
  by_cases hmem : acc.any (fun p => p.1 = cid)
  · rw [addRRF, if_pos hmem] at hq
    obtain ⟨p, hp, hpq⟩ := List.mem_map.mp hq
    left
    subst hpq
    by_cases hpk : p.1 = cid
    · simpa [hpk] using List.mem_map_of_mem Prod.fst hp
    · simpa [hpk] using List.mem_map_of_mem Prod.fst hp
  · rw [addRRF, if_neg hmem] at hq
    rcases List.mem_append.mp hq with h | h
    · exact Or.inl (List.mem_map_of_mem Prod.fst h)
    · simp only [List.mem_singleton] at h
      subst h
      exact Or.inr rfl

theorem mem_keys_rrfAdd (k : ℚ) (l : List (String × ℚ)) :
    ∀ (r : Nat) (acc : List (String × ℚ)) (a : String),
      a ∈ (rrfAdd k r acc l).map Prod.fst →
      a ∈ acc.map Prod.fst ∨ a ∈ l.map Prod.fst := by
  induction l with
  | nil => intro r acc a ha; exact Or.inl ha
  | cons x rest ih =>
    intro r acc a ha
    obtain ⟨c0, s0⟩ := x
    rcases ih (r + 1) _ a ha with h | h
    · rcases mem_keys_addRRF acc c0 _ a h with h2 | h2
      · exact Or.inl h2
      · exact Or.inr (by simp [h2])
    · exact Or.inr (List.mem_cons_of_mem _ h)

theorem find?_key_eq_some_iff (l : List (String × ℚ)) (cid : String)
    (hnd : (l.map Prod.fst).Nodup) (q : String × ℚ) :
    l.find? (fun p => p.1 = cid) = some q ↔ q ∈ l ∧ q.1 = cid := by
  induction l with
  | nil => simp [List.find?]
  | cons x xs ih =>
    rw [List.map_cons, List.nodup_cons] at hnd
    by_cases hx : x.1 = cid
    · rw [List.find?]
      simp only [hx, decide_True]
      constructor
      · rintro h
        injection h with h2
        subst h2
        exact ⟨List.mem_cons_self _ _, hx⟩
      · rintro ⟨hmem, hkey⟩
        rcases List.mem_cons.mp hmem with h | h
        · rw [h]
        · have hin : q.1 ∈ xs.map Prod.fst := List.mem_map_of_mem Prod.fst h
          rw [hkey, ← hx] at hin
          exact absurd hin hnd.1
    · rw [List.find?]
      simp only [hx, decide_False]
      rw [ih hnd.2]
      constructor
      · rintro ⟨hmem, hkey⟩
        exact ⟨List.mem_cons_of_mem x hmem, hkey⟩
      · rintro ⟨hmem, hkey⟩
        rcases List.mem_cons.mp hmem with h | h
        · exact absurd (h ▸ hkey) hx
        · exact ⟨h, hkey⟩

theorem rrfScoreOf_perm (l l' : List (String × ℚ)) (hp : l.Perm l')
    (hnd : (l.map Prod.fst).Nodup) (cid : String) :
    rrfScoreOf l cid = rrfScoreOf l' cid := by
  have hnd' : (l'.map Prod.fst).Nodup := (hp.map Prod.fst).nodup hnd
  rcases h : l.find? (fun p => p.1 = cid) with _ | q
  · have h' : l'.find? (fun p => p.1 = cid) = none := by
      rw [List.find?_eq_none] at h ⊢
      intro x hx
      exact h x (hp.mem_iff.mpr hx)
    rw [rrfScoreOf, rrfScoreOf, h, h']
  · have hq := (find?_key_eq_some_iff l cid hnd q).mp h
    have h' : l'.find? (fun p => p.1 = cid) = some q :=
      (find?_key_eq_some_iff l' cid hnd' q).mpr ⟨hp.mem_iff.mp hq.1, hq.2⟩
    rw [rrfScoreOf, rrfScoreOf, h, h']

/-- The accumulated association list behind reciprocalRankFusion. -/
def rrfAccum (vec bm : List (String × ℚ)) (k : ℚ) : List (String × ℚ) :=
  rrfAdd k 0 (rrfAdd k 0 [] vec) bm

theorem keys_rrfAccum_nodup (vec bm : List (String × ℚ)) (k : ℚ) :
    ((rrfAccum vec bm k).map Prod.fst).Nodup :=
  keys_rrfAdd_nodup k bm 0 _ (keys_rrfAdd_nodup k vec 0 [] (by simp))

theorem rrfScoreOf_fusion (vec bm : List (String × ℚ)) (k : ℚ)
    (hv : (vec.map Prod.fst).Nodup) (hb : (bm.map Prod.fst).Nodup)
    (cid : String) :
    rrfScoreOf (reciprocalRankFusion vec bm k) cid =
      rrfContribution k vec cid + rrfContribution k bm cid := by
  have hperm : (reciprocalRankFusion vec bm k).Perm (rrfAccum vec bm k) :=
    List.perm_insertionSort scoreGe _
  have hnds : ((reciprocalRankFusion vec bm k).map Prod.fst).Nodup :=
    (hperm.symm.map Prod.fst).nodup (keys_rrfAccum_nodup vec bm k)
  rw [rrfScoreOf_perm _ _ hperm hnds cid]
  rw [rrfAccum, rrfScoreOf_rrfAdd k bm cid hb 0 _,
    rrfScoreOf_rrfAdd k vec cid hv 0 []]
  rw [show rrfScoreOf [] cid = 0 from rfl]
  rw [rrfContribution, rrfContribution, zero_add]

/-! ## Claim C2 — fusion is positional, summed per id, with the spec's
concrete example -/

/-- The semantic ranking A, B, C of the spec's fusion example. -/
def rrfSemanticExample : List (String × ℚ) := [("A", 3), ("B", 2), ("C", 1)]

/-- The lexical ranking B, A, D of the spec's fusion example. -/
def rrfLexicalExample : List (String × ℚ) := [("B", 3), ("A", 2), ("D", 1)]

/-- The fused list for the spec's example with k = 60. -/
def rrfFusedExample : List (String × ℚ) :=
  reciprocalRankFusion rrfSemanticExample rrfLexicalExample 60

theorem rrfFusedExample_eval :
    rrfFusedExample =
      [("A", 123/3782), ("B", 123/3782), ("C", 1/63), ("D", 1/63)] := by
  norm_num +decide [rrfFusedExample, reciprocalRankFusion, rrfSemanticExample,
    rrfLexicalExample, rrfAdd, addRRF, List.insertionSort, List.orderedInsert,
    scoreGe, List.find?, List.any]

/-- Claim C2: reciprocal rank fusion scores every item 1/(k + 1-based rank)
from its position only, never its raw score, and sums contributions per
passage id across both lists, an absent id contributing 0; concretely, with
semantic ranking A,B,C, lexical ranking B,A,D and k = 60, the fused score of
A is exactly 1/61 + 1/62 and B is fused above both C and D. -/
theorem rrf_positional_scores :
    (∀ (vec bm : List (String × ℚ)) (k : ℚ),
        (vec.map Prod.fst).Nodup → (bm.map Prod.fst).Nodup →
        ∀ cid, rrfScoreOf (reciprocalRankFusion vec bm k) cid =
          rrfContribution k vec cid + rrfContribution k bm cid) ∧
    rrfScoreOf rrfFusedExample "A" = 1 / 61 + 1 / 62 ∧
    rrfFusedExample.findIdx (fun p => p.1 = "B") <
      rrfFusedExample.findIdx (fun p => p.1 = "C") ∧
    rrfFusedExample.findIdx (fun p => p.1 = "B") <
      rrfFusedExample.findIdx (fun p => p.1 = "D") := by
  refine ⟨fun vec bm k hv hb cid => rrfScoreOf_fusion vec bm k hv hb cid,
    ?_, ?_, ?_⟩
  · rw [rrfFusedExample_eval]
    norm_num [rrfScoreOf, List.find?]
  · rw [rrfFusedExample_eval]
    decide
  · rw [rrfFusedExample_eval]
    decide

/-- Witness for C2: the general positional-score equation instantiated on
the spec's concrete example lists, hypotheses discharged by evaluation. -/
theorem rrf_positional_scores_witness :
    ((rrfSemanticExample.map Prod.fst).Nodup ∧
      (rrfLexicalExample.map Prod.fst).Nodup) ∧
    rrfScoreOf (reciprocalRankFusion rrfSemanticExample rrfLexicalExample 60)
        "A" =
      rrfContribution 60 rrfSemanticExample "A" +
        rrfContribution 60 rrfLexicalExample "A" :=
  ⟨⟨by decide, by decide⟩,
    rrf_positional_scores.1 rrfSemanticExample rrfLexicalExample 60
      (by decide) (by decide) "A"⟩

/-! ## Claims C6, C7 — confidence estimator -/

/-- A result record with the given id and relevance score and neutral
remaining fields, for concrete confidence inputs. -/
def mkResult (cid : String) (rel : ℚ) : RetrievedResult :=
  { chunk_id := cid
    chunk_text := ""
    filename := ""
    doc_type := ""
    year := ""
    page := 0
    regions := []
    relevance_score := rel
    rrf_score := 0
    drive_link := none }

/-- Relevance scores 0.8, 0.8, 0.7999: their mean 0.79996... is below the
high threshold, but rounds to 0.8000. -/
def confCexResults : List RetrievedResult :=
  [mkResult "a" (8/10), mkResult "b" (8/10), mkResult "c" (7999/10000)]

/-- Counterexample to claim C6 as stated: compute_confidence returns the
rounded score 0.8, which meets the high threshold, together with the tier
medium, and the returned score is not the arithmetic mean of the top-3
semantic scores. -/
theorem confidence_rounding_cex :
    computeConfidence confCexResults = ("medium", 8/10) ∧
    HIGH_CONFIDENCE_THRESHOLD ≤ (computeConfidence confCexResults).2 ∧
    (computeConfidence confCexResults).2 ≠ topAvg confCexResults := by
  have hrw : confCexResults =
      mkResult "a" (8/10) :: [mkResult "b" (8/10), mkResult "c" (7999/10000)] := rfl
  have havg : topAvg confCexResults = 23999/30000 := by
    norm_num [topAvg, confCexResults, mkResult]
  have hcc : computeConfidence confCexResults = ("medium", 8/10) := by
    rw [hrw, computeConfidence, ← hrw, havg]
    rw [if_neg (by rw [HIGH_CONFIDENCE_THRESHOLD]; norm_num)]
    rw [if_pos (by rw [MEDIUM_CONFIDENCE_THRESHOLD]; norm_num)]
    rw [round4, round_eq]
    norm_num
  refine ⟨hcc, ?_, ?_⟩
  · rw [hcc, HIGH_CONFIDENCE_THRESHOLD]
    norm_num
  · rw [hcc, havg]
    norm_num

/-- Claim C6, amended: the tier is computed from the unrounded mean of the
top-3 semantic scores with the default thresholds (high at 0.80, medium at
0.55), the empty result list yields (low, 0), and the returned score is the
mean rounded to 4 decimal places, not the mean itself. -/
theorem confidence_tier_from_unrounded_mean (results : List RetrievedResult) :
    computeConfidence [] = ("low", 0) ∧
    (results ≠ [] →
      (computeConfidence results).2 = round4 (topAvg results) ∧
      ((computeConfidence results).1 = "high" ↔
        HIGH_CONFIDENCE_THRESHOLD ≤ topAvg results) ∧
      ((computeConfidence results).1 = "medium" ↔
        MEDIUM_CONFIDENCE_THRESHOLD ≤ topAvg results ∧
          topAvg results < HIGH_CONFIDENCE_THRESHOLD) ∧
      ((computeConfidence results).1 = "low" ↔
        topAvg results < MEDIUM_CONFIDENCE_THRESHOLD)) := by
  refine ⟨rfl, fun hne => ?_⟩
  obtain ⟨x, xs, rfl⟩ : ∃ x xs, results = x :: xs := by
    rcases results with _ | ⟨x, xs⟩
    · exact absurd rfl hne
    · exact ⟨x, xs, rfl⟩
  rw [computeConfidence]
  by_cases h1 : HIGH_CONFIDENCE_THRESHOLD ≤ topAvg (x :: xs)
  · rw [if_pos h1]
    refine ⟨rfl, by simp [h1], ?_, ?_⟩
    · simp only [show ("high" : String) = "medium" ↔ False by simp, false_iff]
      rintro ⟨-, hlt⟩
      exact absurd h1 (not_le.mpr hlt)
    · simp only [show ("high" : String) = "low" ↔ False by simp, false_iff]
      intro hlt
      have := lt_of_lt_of_le (lt_of_lt_of_le hlt (by
        rw [MEDIUM_CONFIDENCE_THRESHOLD, HIGH_CONFIDENCE_THRESHOLD]; norm_num)) h1
      exact absurd this (lt_irrefl _)
  · rw [if_neg h1]
    by_cases h2 : MEDIUM_CONFIDENCE_THRESHOLD ≤ topAvg (x :: xs)
    · rw [if_pos h2]
      refine ⟨rfl, by simp [h1], ?_, ?_⟩
      · simp only [show ("medium" : String) = "medium" ↔ True by simp, true_iff]
        exact ⟨h2, not_le.mp h1⟩
      · simp only [show ("medium" : String) = "low" ↔ False by simp, false_iff]
        exact fun hlt => absurd h2 (not_le.mpr hlt)
    · rw [if_neg h2]
      refine ⟨rfl, by simp [h1], ?_, by simp [not_le.mp h2]⟩
      simp only [show ("low" : String) = "medium" ↔ False by simp, false_iff]
      rintro ⟨hge, -⟩
      exact absurd hge h2

/-- Witness for C6: the amended characterization instantiated on a concrete
one-element result list. -/
theorem confidence_tier_from_unrounded_mean_witness :
    ([mkResult "a" 1] ≠ ([] : List RetrievedResult)) ∧
    ((computeConfidence [mkResult "a" 1]).2 = round4 (topAvg [mkResult "a" 1]) ∧
      ((computeConfidence [mkResult "a" 1]).1 = "high" ↔
        HIGH_CONFIDENCE_THRESHOLD ≤ topAvg [mkResult "a" 1]) ∧
      ((computeConfidence [mkResult "a" 1]).1 = "medium" ↔
        MEDIUM_CONFIDENCE_THRESHOLD ≤ topAvg [mkResult "a" 1] ∧
          topAvg [mkResult "a" 1] < HIGH_CONFIDENCE_THRESHOLD) ∧
      ((computeConfidence [mkResult "a" 1]).1 = "low" ↔
        topAvg [mkResult "a" 1] < MEDIUM_CONFIDENCE_THRESHOLD)) :=
  ⟨List.cons_ne_nil _ _,
    (confidence_tier_from_unrounded_mean [mkResult "a" 1]).2
      (List.cons_ne_nil _ _)⟩

theorem round4_mono {a b : ℚ} (h : a ≤ b) : round4 a ≤ round4 b := by
  rw [round4, round4]
  have hr : round (a * 10000) ≤ round (b * 10000) := by
    rw [round_eq, round_eq]
    exact Int.floor_le_floor (by linarith)
  exact div_le_div_of_nonneg_right (c := 10000) (Int.cast_le.mpr hr)
    (by norm_num) |>.trans_eq rfl

theorem sum_map_le_of_forall2 {X Y : List RetrievedResult}
    (h : List.Forall₂
      (fun a b => b.relevance_score ≤ a.relevance_score) X Y) :
    (Y.map RetrievedResult.relevance_score).sum ≤
      (X.map RetrievedResult.relevance_score).sum := by
  induction h with
  | nil => exact le_refl _
  | cons hab hrest ih => simpa using add_le_add hab ih

/-- Claim C7: the confidence score is monotone — if X and Y have the same
number of results and each of X's top-3 semantic scores is at least the
corresponding score of Y, then X's confidence score is at least Y's. -/
theorem confidence_monotone (X Y : List RetrievedResult)
    (hlen : X.length = Y.length)
    (h : List.Forall₂
      (fun a b => b.relevance_score ≤ a.relevance_score)
      (X.take 3) (Y.take 3)) :
    (computeConfidence Y).2 ≤ (computeConfidence X).2 := by
  rcases X with _ | ⟨x, xs⟩
  · rcases Y with _ | ⟨y, ys⟩
    · exact le_refl _
    · exact absurd hlen (by simp)
  · rcases Y with _ | ⟨y, ys⟩
    · exact absurd hlen (by simp)
    · rw [computeConfidence, computeConfidence]
      have havg : topAvg (y :: ys) ≤ topAvg (x :: xs) := by
        rw [topAvg, topAvg]
        have hsum := sum_map_le_of_forall2 h
        have hlen3 : ((y :: ys).take 3).length = ((x :: xs).take 3).length := by
          rw [List.length_take, List.length_take, hlen]
        rw [hlen3]
        have hpos : (0:ℚ) < (((x :: xs).take 3).length : ℚ) := by
          have h0 : 0 < ((x :: xs).take 3).length := by
            simp [List.length_take]
          exact_mod_cast h0
        exact div_le_div_of_nonneg_right hsum hpos.le |>.trans_eq rfl
      exact round4_mono havg

/-- Witness for C7: monotonicity applied to two concrete two-element result
lists with pointwise dominating scores. -/
theorem confidence_monotone_witness :
    ([mkResult "a" 1, mkResult "b" 1].length =
      [mkResult "c" 0, mkResult "d" 1].length) ∧
    (computeConfidence [mkResult "c" 0, mkResult "d" 1]).2 ≤
      (computeConfidence [mkResult "a" 1, mkResult "b" 1]).2 :=
  ⟨rfl, confidence_monotone _ _ rfl
    (List.Forall₂.cons (by norm_num [mkResult])
      (List.Forall₂.cons (by norm_num [mkResult]) List.Forall₂.nil))⟩

/-! ## Claim C5 — empty-filter fallback -/

/-- Claim C5: when the filtered semantic and lexical paths both return zero
candidates, retrieve re-runs both paths with filters cleared, so the query
returns exactly the list the unfiltered pipeline returns. -/
theorem filter_empty_fallback (b : SearchBackend) (q : String) (top_k : Nat)
    (osf : Filters)
    (hosf : buildOpenSearchFilter (extractMetadataFilters q) = some osf)
    (hv : b.vectorSearch q (some osf) VECTOR_TOP_K = [])
    (hb : b.bm25Search q (some osf) BM25_TOP_K = []) :
    retrieve b q top_k = retrieveUnfiltered b q top_k := by
  have hcl : candidateLists b q =
      (b.vectorSearch q none VECTOR_TOP_K, b.bm25Search q none BM25_TOP_K) := by
    simp only [candidateLists, hosf, hv, hb]
    simp
  rw [retrieve, retrieveUnfiltered, hcl]

/-- A backend whose filtered searches find nothing and whose unfiltered
searches find a candidate, for exercising the fallback. -/
def fallbackBackend : SearchBackend :=
  { vectorSearch := fun _ osf _ =>
      match osf with
      | none => [("X", 1)]
      | some _ => []
    bm25Search := fun _ osf _ =>
      match osf with
      | none => [("Y", 1)]
      | some _ => []
    fetchDoc := fun _ => none
    driveLink := fun _ => none }

/-- Witness for C5: the query whitepaper extracts a doc-type filter, the
filtered paths are empty, and retrieval equals the unfiltered pipeline. -/
theorem filter_empty_fallback_witness :
    buildOpenSearchFilter (extractMetadataFilters "whitepaper") =
      some ⟨none, some "whitepaper", none⟩ ∧
    retrieve fallbackBackend "whitepaper" FINAL_TOP_K =
      retrieveUnfiltered fallbackBackend "whitepaper" FINAL_TOP_K :=
  ⟨by decide,
    filter_empty_fallback fallbackBackend "whitepaper" FINAL_TOP_K
      ⟨none, some "whitepaper", none⟩ (by decide) rfl rfl⟩

/-! ## Claims C9, C10 — result assembly invariants -/

theorem assembleResult_spec (b : SearchBackend) (v : List (String × ℚ))
    (p : String × ℚ) (r : RetrievedResult)
    (h : assembleResult b v p = some r) :
    r.chunk_id = p.1 ∧ r.relevance_score = round4 (pyDictLookup v p.1) ∧
    r.rrf_score = round4 p.2 := by
  rw [assembleResult] at h
  rcases hf : b.fetchDoc p.1 with _ | src
  · rw [hf] at h
    cases h
  · rw [hf] at h
    injection h with h
    subst h
    exact ⟨rfl, rfl, rfl⟩

theorem pyDictLookup_eq_zero_of_not_mem (l : List (String × ℚ))
    (cid : String) (h : cid ∉ l.map Prod.fst) : pyDictLookup l cid = 0 := by
  rw [pyDictLookup]
  have hnone : l.reverse.find? (fun p => p.1 = cid) = none := by
    rw [List.find?_eq_none]
    intro x hx
    simp only [decide_eq_true_eq]
    intro hk
    exact h (hk ▸ List.mem_map_of_mem Prod.fst (List.mem_reverse.mp hx))
  rw [hnone]

theorem round4_zero : round4 0 = 0 := by
  rw [round4]
  norm_num

/-- Claim C9, amended: every returned result's relevance_score is the
semantic candidate score of its passage rounded to 4 decimal places when the
passage appeared in the semantic list, and 0 otherwise (so lexical-only
passages carry relevance 0 into the confidence mean). -/
theorem relevance_from_semantic_rounded (b : SearchBackend) (q : String)
    (top_k : Nat) (r : RetrievedResult) (hr : r ∈ retrieve b q top_k) :
    r.relevance_score =
      round4 (pyDictLookup (candidateLists b q).1 r.chunk_id) ∧
    (r.chunk_id ∉ (candidateLists b q).1.map Prod.fst →
      r.relevance_score = 0) := by
  rw [retrieve, retrieveFrom] at hr
  obtain ⟨p, hp, hpr⟩ := List.mem_filterMap.mp hr
  obtain ⟨hid, hrel, -⟩ := assembleResult_spec _ _ _ _ hpr
  constructor
  · rw [hrel, hid]
  · intro habs
    rw [hid] at habs
    rw [hrel, pyDictLookup_eq_zero_of_not_mem _ _ habs, round4_zero]

/-- The stored document hydrating chunk id A in the concrete backend. -/
def docA9 : IndexedDoc :=
  { text := "text a", chunk_id := "A", filename := "f.pdf",
    doc_type := "unknown", year := "unknown", page := 1, regions := [],
    drive_link := "" }

/-- A backend whose semantic path returns one candidate with score 0.123456
and whose lexical path returns nothing. -/
def semOnlyBackend : SearchBackend :=
  { vectorSearch := fun _ _ _ => [("A", 123456/1000000)]
    bm25Search := fun _ _ _ => []
    fetchDoc := fun cid => if cid = "A" then some docA9 else none
    driveLink := fun _ => none }

/-- The single result retrieve produces from semOnlyBackend. -/
def resA9 : RetrievedResult :=
  { chunk_id := "A", chunk_text := "text a", filename := "f.pdf",
    doc_type := "unknown", year := "unknown", page := 1, regions := [],
    relevance_score := 1235/10000, rrf_score := 41/2500, drive_link := none }

theorem retrieve_semOnly_eval :
    retrieve semOnlyBackend "zkq" FINAL_TOP_K = [resA9] := by
  norm_num +decide [retrieve, retrieveFrom, candidateLists, semOnlyBackend,
    docA9, resA9, assembleResult, reciprocalRankFusion, rrfAdd, addRRF,
    List.insertionSort, List.orderedInsert, scoreGe, extractMetadataFilters,
    buildOpenSearchFilter, findYearBounded, yearAtBounded, queryDocType,
    queryRegion, REGION_KEYWORDS, strContainsSub, subIn, leadsWith, lowerStr,
    pyDictLookup, round4, round_eq, List.find?, List.any,
    List.filterMap_cons, List.filterMap_nil, VECTOR_TOP_K, BM25_TOP_K,
    FINAL_TOP_K, RRF_K]

theorem candidateLists_semOnly_eval :
    candidateLists semOnlyBackend "zkq" = ([("A", 123456/1000000)], []) := by
  norm_num +decide [candidateLists, semOnlyBackend, extractMetadataFilters,
    buildOpenSearchFilter, findYearBounded, yearAtBounded, queryDocType,
    queryRegion, REGION_KEYWORDS, strContainsSub, subIn, leadsWith, lowerStr,
    VECTOR_TOP_K, BM25_TOP_K]

/-- Counterexample to claim C9 as stated: the passage A entered the semantic
candidate list with score 0.123456, but its returned relevance_score is the
rounded 0.1235, not that score. -/
theorem relevance_rounding_cex :
    (retrieve semOnlyBackend "zkq" FINAL_TOP_K).map
        RetrievedResult.relevance_score = [1235/10000] ∧
    pyDictLookup (candidateLists semOnlyBackend "zkq").1 "A" =
      123456/1000000 ∧
    (1235/10000 : ℚ) ≠ 123456/1000000 := by
  refine ⟨?_, ?_, by norm_num⟩
  · rw [retrieve_semOnly_eval]
    norm_num [resA9]
  · rw [candidateLists_semOnly_eval]
    norm_num +decide [pyDictLookup, List.find?]

/-- Witness for C9: the amended relevance equation at the concrete result
retrieved from semOnlyBackend. -/
theorem relevance_from_semantic_rounded_witness :
    resA9 ∈ retrieve semOnlyBackend "zkq" FINAL_TOP_K ∧
    resA9.relevance_score =
      round4 (pyDictLookup (candidateLists semOnlyBackend "zkq").1
        resA9.chunk_id) :=
  ⟨by rw [retrieve_semOnly_eval]; exact List.mem_singleton.mpr rfl,
    (relevance_from_semantic_rounded semOnlyBackend "zkq" FINAL_TOP_K resA9
      (by rw [retrieve_semOnly_eval]; exact List.mem_singleton.mpr rfl)).1⟩

theorem pairwise_filterMap_of_pairwise {α β : Type} (f : α → Option β)
    (R : α → α → Prop) (S : β → β → Prop)
    (hf : ∀ a1 a2 b1 b2, R a1 a2 → f a1 = some b1 → f a2 = some b2 → S b1 b2)
    (l : List α) : List.Pairwise R l → List.Pairwise S (l.filterMap f) := by
  induction l with
  | nil => intro; simp
  | cons a as ih =>
    intro hp
    rcases List.pairwise_cons.mp hp with ⟨hall, htail⟩
    rw [List.filterMap_cons]
    rcases hfa : f a with _ | b
    · exact ih htail
    · rw [List.pairwise_cons]
      refine ⟨?_, ih htail⟩
      intro b' hb'
      obtain ⟨a', ha', hfa'⟩ := List.mem_filterMap.mp hb'
      exact hf a a' b b' (hall a' ha') hfa hfa'

theorem fused_pairwise (v bm : List (String × ℚ)) (k : ℚ) :
    List.Pairwise scoreGe (reciprocalRankFusion v bm k) :=
  List.sorted_insertionSort scoreGe _

/-- Claim C10: retrieve returns at most top_k results, ordered by
non-increasing fused RRF score, and every returned chunk id appears in at
least one of the two candidate lists produced for the query. -/
theorem retrieve_topk_sorted_members (b : SearchBackend) (q : String)
    (top_k : Nat) :
    (retrieve b q top_k).length ≤ top_k ∧
    List.Pairwise (fun r1 r2 => r2.rrf_score ≤ r1.rrf_score)
      (retrieve b q top_k) ∧
    ∀ r ∈ retrieve b q top_k,
      r.chunk_id ∈ (candidateLists b q).1.map Prod.fst ++
        (candidateLists b q).2.map Prod.fst := by
  refine ⟨?_, ?_, ?_⟩
  · rw [retrieve, retrieveFrom]
    exact le_trans (List.length_filterMap_le _ _)
      (by rw [List.length_take]; exact min_le_left _ _)
  · rw [retrieve, retrieveFrom]
    apply pairwise_filterMap_of_pairwise _ scoreGe _ ?_ _
      (List.Pairwise.sublist (List.take_sublist _ _) (fused_pairwise _ _ _))
    intro p1 p2 r1 r2 hR h1 h2
    obtain ⟨-, -, hr1⟩ := assembleResult_spec _ _ _ _ h1
    obtain ⟨-, -, hr2⟩ := assembleResult_spec _ _ _ _ h2
    rw [hr1, hr2]
    exact round4_mono hR
  · intro r hr
    rw [retrieve, retrieveFrom] at hr
    obtain ⟨p, hp, hpr⟩ := List.mem_filterMap.mp hr
    obtain ⟨hid, -, -⟩ := assembleResult_spec _ _ _ _ hpr
    have hpmem : p ∈ reciprocalRankFusion (candidateLists b q).1
        (candidateLists b q).2 (RRF_K : ℚ) := List.mem_of_mem_take hp
    have hacc : p ∈ rrfAccum (candidateLists b q).1 (candidateLists b q).2
        (RRF_K : ℚ) :=
      (List.perm_insertionSort scoreGe _).mem_iff.mp hpmem
    have hkey := List.mem_map_of_mem Prod.fst hacc
    rcases mem_keys_rrfAdd _ _ _ _ _ hkey with h | h
    · rcases mem_keys_rrfAdd _ _ _ _ _ h with h2 | h2
      · simp at h2
      · exact hid ▸ List.mem_append.mpr (Or.inl h2)
    · exact hid ▸ List.mem_append.mpr (Or.inr h)

/-- Witness for C10: the membership conjunct discharged on the concrete
result retrieved from semOnlyBackend. -/
theorem retrieve_topk_sorted_members_witness :
    resA9 ∈ retrieve semOnlyBackend "zkq" FINAL_TOP_K ∧
    resA9.chunk_id ∈ (candidateLists semOnlyBackend "zkq").1.map Prod.fst ++
      (candidateLists semOnlyBackend "zkq").2.map Prod.fst :=
  ⟨by rw [retrieve_semOnly_eval]; exact List.mem_singleton.mpr rfl,
    (retrieve_topk_sorted_members semOnlyBackend "zkq" FINAL_TOP_K).2.2 resA9
      (by rw [retrieve_semOnly_eval]; exact List.mem_singleton.mpr rfl)⟩

/-! ## Claim C8 — the unknown year sentinel never matches a year filter -/

theorem yearAtBounded_shape (prev : Option Char) (l : List Char) (y : String)
    (h : yearAtBounded prev l = some y) :
    ∃ c2 c3, y = String.mk ['2', '0', c2, c3] := by
  rcases l with _ | ⟨c0, _ | ⟨c1, _ | ⟨c2, _ | ⟨c3, rest⟩⟩⟩⟩
  · exact Option.noConfusion h
  · exact Option.noConfusion h
  · exact Option.noConfusion h
  · exact Option.noConfusion h
  · rw [yearAtBounded] at h
    split at h
    · next hcond =>
      injection h with h
      refine ⟨c2, c3, ?_⟩
      rw [← h, hcond.2.1, hcond.2.2.1]
    · exact Option.noConfusion h

theorem findYearBounded_shape (l : List Char) :
    ∀ (prev : Option Char) (y : String),
      findYearBounded prev l = some y →
      ∃ c2 c3, y = String.mk ['2', '0', c2, c3] := by
  induction l with
  | nil => intro prev y h; exact Option.noConfusion h
  | cons c rest ih =>
    intro prev y h
    rw [findYearBounded] at h
    rcases ha : yearAtBounded prev (c :: rest) with _ | y0
    · rw [ha] at h
      exact ih (some c) y h
    · rw [ha] at h
      injection h with h
      subst h
      exact yearAtBounded_shape prev (c :: rest) y0 ha

theorem filterYear_ne_unknown (q : String) (y : String)
    (hy : (extractMetadataFilters q).year = some y) : y ≠ "unknown" := by
  have hy' : findYearBounded none q.data = some y := hy
  obtain ⟨c2, c3, rfl⟩ := findYearBounded_shape q.data none y hy'
  intro h
  have h2 := congrArg String.length h
  rw [show (String.mk ['2', '0', c2, c3]).length = 4 from rfl] at h2
  exact absurd h2 (by decide)

/-- Claim C8: when a document's year could not be inferred (the chunk's year
is None), build_index stores the literal string unknown in the year field,
so the indexed year is never null; and a year filter extracted from a query
(always of the 4-character form 20xy) can never equal it, so such passages
never match a year filter. -/
theorem year_unknown_never_matches (c : Chunk) (link : String) (q : String)
    (y : String) (hy : (extractMetadataFilters q).year = some y)
    (hc : c.year = none) :
    (toIndexedDoc c link).year = "unknown" ∧ y ≠ "unknown" ∧
    (toIndexedDoc c link).year ≠ y := by
  have h1 : (toIndexedDoc c link).year = "unknown" := by
    show yearOrUnknown c.year = "unknown"
    rw [hc]
    rfl
  have h2 : y ≠ "unknown" := filterYear_ne_unknown q y hy
  exact ⟨h1, h2, by rw [h1]; exact fun h => h2 h.symm⟩

/-- A chunk whose document had no inferable year. -/
def chunkNoYear : Chunk :=
  { chunk_id := "x", chunk_text := "", sentences := [],
    filename := "plain.pdf", doc_type := "unknown", year := none, page := 1,
    regions := [], token_count := 0 }

/-- Witness for C8: a query naming 2022 yields the year filter 2022, which
cannot match the stored unknown year of a no-year chunk. -/
theorem year_unknown_never_matches_witness :
    (extractMetadataFilters "case studies from 2022").year = some "2022" ∧
    chunkNoYear.year = none ∧
    ((toIndexedDoc chunkNoYear "").year = "unknown" ∧
      ("2022" : String) ≠ "unknown" ∧
      (toIndexedDoc chunkNoYear "").year ≠ "2022") :=
  ⟨by decide, rfl,
    year_unknown_never_matches chunkNoYear "" "case studies from 2022" "2022"
      (by decide) rfl⟩

/-! ## Claim C1 — chunk ids are positional, but by document ordinal -/

/-- Every chunk's id is the hash of (filename, its page, its 0-based index
in this list). -/
def IdsPositional (fn : String) (chunks : List Chunk) : Prop :=
  ∀ (i : Nat) (h : i < chunks.length),
    chunks[i].chunk_id = makeChunkId fn chunks[i].page i

theorem idsPositional_append (fn dt : String) (yr : Option String)
    (rg : List String) (pg : Nat) (cur : List Sentence) (chunks : List Chunk)
    (h : IdsPositional fn chunks) :
    IdsPositional fn (chunks ++ [mkChunk fn dt yr rg pg chunks.length cur]) := by
  intro i hi
  rw [List.length_append] at hi
  by_cases hlt : i < chunks.length
  · rw [List.getElem_append_left hlt]
    exact h i hlt
  · have heq : i = chunks.length := by
      simp only [List.length_singleton] at hi
      omega
    rw [List.getElem_concat_length _ _ _ heq]
    rw [heq]
    rfl

theorem chunkLoop_idsPositional (fn dt : String) (yr : Option String)
    (rg : List String) (pg : Nat) (ss : List Sentence) :
    ∀ (chunks : List Chunk) (cur : List Sentence) (curTok : Nat),
      IdsPositional fn chunks →
      IdsPositional fn (chunkLoop fn dt yr rg pg ss chunks cur curTok).1 := by
  induction ss with
  | nil => intro chunks cur curTok h; exact h
  | cons s rest ih =>
    intro chunks cur curTok h
    rw [chunkLoop]
    split
    · exact ih _ _ _ (idsPositional_append fn dt yr rg pg cur chunks h)
    · exact ih _ _ _ h

theorem chunkPage_idsPositional (fn dt : String) (yr : Option String)
    (rg : List String) (chunks : List Chunk) (pi : PageInfo)
    (h : IdsPositional fn chunks) :
    IdsPositional fn (chunkPage fn dt yr rg chunks pi) := by
  have h2 : IdsPositional fn
      (chunkLoop fn dt yr rg pi.page pi.sentences chunks [] 0).1 :=
    chunkLoop_idsPositional fn dt yr rg pi.page pi.sentences chunks [] 0 h
  simp only [chunkPage]
  split
  · exact idsPositional_append fn dt yr rg pi.page _ _ h2
  · exact h2

theorem chunkPagesGo_idsPositional (fn dt : String) (yr : Option String)
    (rg : List String) (ps : List PageInfo) :
    ∀ chunks : List Chunk, IdsPositional fn chunks →
      IdsPositional fn (chunkPagesGo fn dt yr rg ps chunks) := by
  induction ps with
  | nil => intro chunks h; exact h
  | cons p rest ih =>
    intro chunks h
    exact ih _ (chunkPage_idsPositional fn dt yr rg chunks p h)

/-- Claim C1, amended: chunk ids are deterministic hashes of (filename,
page, ordinal), but the ordinal is the chunk's 0-based position in the whole
document's chunk list — the counter runs across pages — not the ordinal
within its page. -/
theorem chunkId_from_document_ordinal (doc : Document) (i : Nat)
    (h : i < (chunkDocument doc).length) :
    (chunkDocument doc)[i].chunk_id =
      makeChunkId doc.filename (chunkDocument doc)[i].page i :=
  chunkPagesGo_idsPositional doc.filename (extractDocType doc.filename)
    (extractYear doc.filename doc.full_text) (extractRegions doc.full_text)
    doc.pages [] (fun _ h0 => absurd h0 (by simp)) i h

/-- Two documents with the same filename: page 1 yields one chunk in the
first and two in the second, so the first chunk of page 2 has within-page
ordinal 0 in both but document ordinal 1 versus 2. -/
def docIdA : Document :=
  ⟨"doc.pdf", [⟨1, [⟨"a.", 10⟩]⟩, ⟨2, [⟨"b.", 10⟩]⟩], "t"⟩

def docIdB : Document :=
  ⟨"doc.pdf", [⟨1, [⟨"a.", 550⟩, ⟨"c.", 550⟩]⟩, ⟨2, [⟨"b.", 10⟩]⟩], "t"⟩

/-- Counterexample to claim C1 as stated: both documents have the same
filename, and in each the single page-2 chunk is the first chunk of page 2
(within-page ordinal 0) with identical text, yet the two ids differ —
the id depends on how many chunks earlier pages produced. -/
theorem chunkId_not_per_page_ordinal_cex :
    docIdA.filename = docIdB.filename ∧
    ((chunkDocument docIdA).filter (fun c => c.page = 2)).map
        (fun c => (c.filename, c.page, c.sentences)) =
      ((chunkDocument docIdB).filter (fun c => c.page = 2)).map
        (fun c => (c.filename, c.page, c.sentences)) ∧
    ((chunkDocument docIdA).filter (fun c => c.page = 2)).length = 1 ∧
    ((chunkDocument docIdA).filter (fun c => c.page = 2)).map Chunk.chunk_id ≠
      ((chunkDocument docIdB).filter (fun c => c.page = 2)).map Chunk.chunk_id := by
  refine ⟨rfl, by decide, by decide, by decide⟩

/-- Witness for C1: the document-ordinal id equation at the first chunk of a
concrete document. -/
theorem chunkId_from_document_ordinal_witness :
    0 < (chunkDocument docIdA).length ∧
    ∀ (h : 0 < (chunkDocument docIdA).length),
      (chunkDocument docIdA)[0].chunk_id =
        makeChunkId docIdA.filename (chunkDocument docIdA)[0].page 0 :=
  ⟨by decide, fun h => chunkId_from_document_ordinal docIdA 0 h⟩

/-! ## Claim C3 — token budget -/

theorem sumTokens_append (l1 l2 : List Sentence) :
    sumTokens (l1 ++ l2) = sumTokens l1 + sumTokens l2 := by
  simp [sumTokens]

/-- The chunk respects the budget, or ends in a sentence that alone exceeds
budget minus overlap, preceded only by sentences fitting the overlap
budget. -/
def GoodChunk (c : Chunk) : Prop :=
  c.token_count ≤ CHUNK_SIZE_TOKENS ∨
  ∃ pre s, c.sentences = pre ++ [s] ∧
    sumTokens pre ≤ CHUNK_OVERLAP_TOKENS ∧
    CHUNK_SIZE_TOKENS - CHUNK_OVERLAP_TOKENS < s.tokens

/-- The running buffer is within budget, or its last sentence is preceded
only by sentences fitting the overlap budget. -/
def BufferOk (cur : List Sentence) : Prop :=
  sumTokens cur ≤ CHUNK_SIZE_TOKENS ∨
  ∃ pre s, cur = pre ++ [s] ∧ sumTokens pre ≤ CHUNK_OVERLAP_TOKENS

theorem goodChunk_of_bufferOk (fn dt : String) (yr : Option String)
    (rg : List String) (pg idx : Nat) (cur : List Sentence)
    (h : BufferOk cur) : GoodChunk (mkChunk fn dt yr rg pg idx cur) := by
  rcases h with h | ⟨pre, s, hdec, hpre⟩
  · exact Or.inl h
  · by_cases hle : sumTokens cur ≤ CHUNK_SIZE_TOKENS
    · exact Or.inl hle
    · refine Or.inr ⟨pre, s, hdec, hpre, ?_⟩
      have hsum : sumTokens cur = sumTokens pre + s.tokens := by
        rw [hdec, sumTokens_append]
        simp [sumTokens]
      rw [CHUNK_SIZE_TOKENS, CHUNK_OVERLAP_TOKENS] at *
      omega

theorem sumTokens_overlapGo (l : List Sentence) :
    ∀ (acc : List Sentence) (tks : Nat), sumTokens acc = tks →
      tks ≤ CHUNK_OVERLAP_TOKENS →
      sumTokens (overlapGo l acc tks) ≤ CHUNK_OVERLAP_TOKENS := by
  induction l with
  | nil =>
    intro acc tks hacc hle
    rw [overlapGo]
    omega
  | cons s rest ih =>
    intro acc tks hacc hle
    rw [overlapGo]
    split
    · omega
    · next hcond =>
      refine ih (s :: acc) (tks + s.tokens) ?_ (by omega)
      simp only [sumTokens, List.map_cons, List.sum_cons] at hacc ⊢
      omega

theorem sumTokens_overlapTail (ss : List Sentence) :
    sumTokens (overlapTail ss) ≤ CHUNK_OVERLAP_TOKENS :=
  sumTokens_overlapGo ss.reverse [] 0 rfl (Nat.zero_le _)

theorem chunkLoop_good (fn dt : String) (yr : Option String)
    (rg : List String) (pg : Nat) (ss : List Sentence) :
    ∀ (chunks : List Chunk) (cur : List Sentence) (curTok : Nat),
      (∀ c ∈ chunks, GoodChunk c ∧ c.token_count = sumTokens c.sentences) →
      curTok = sumTokens cur → BufferOk cur →
      (∀ c ∈ (chunkLoop fn dt yr rg pg ss chunks cur curTok).1,
        GoodChunk c ∧ c.token_count = sumTokens c.sentences) ∧
      (chunkLoop fn dt yr rg pg ss chunks cur curTok).2.2 =
        sumTokens (chunkLoop fn dt yr rg pg ss chunks cur curTok).2.1 ∧
      BufferOk (chunkLoop fn dt yr rg pg ss chunks cur curTok).2.1 := by
  induction ss with
  | nil =>
    intro chunks cur curTok hchunks htok hbuf
    exact ⟨hchunks, htok, hbuf⟩
  | cons s rest ih =>
    intro chunks cur curTok hchunks htok hbuf
    rw [chunkLoop]
    split
    · next hcond =>
      refine ih _ _ _ ?_ ?_ ?_
      · intro c hc
        rcases List.mem_append.mp hc with h | h
        · exact hchunks c h
        · simp only [List.mem_singleton] at h
          subst h
          exact ⟨goodChunk_of_bufferOk fn dt yr rg pg chunks.length cur hbuf,
            rfl⟩
      · rw [sumTokens_append]
        simp [sumTokens]
      · by_cases hle :
          sumTokens (overlapTail cur ++ [s]) ≤ CHUNK_SIZE_TOKENS
        · exact Or.inl hle
        · exact Or.inr ⟨overlapTail cur, s, rfl, sumTokens_overlapTail cur⟩
    · next hcond =>
      refine ih _ _ _ hchunks ?_ ?_
      · rw [sumTokens_append]
        simp only [sumTokens, List.map_cons, List.map_nil, List.sum_cons,
          List.sum_nil] at htok ⊢
        omega
      · rcases Decidable.not_and_iff_or_not.mp hcond with h | h
        · left
          rw [sumTokens_append]
          simp only [not_lt] at h
          simp only [sumTokens, List.map_cons, List.map_nil, List.sum_cons,
            List.sum_nil] at htok ⊢
          omega
        · right
          have hc : cur = [] := Decidable.not_not.mp h
          exact ⟨[], s, by rw [hc], by simp [sumTokens]⟩

theorem chunkPage_good (fn dt : String) (yr : Option String)
    (rg : List String) (chunks : List Chunk) (pi : PageInfo)
    (h : ∀ c ∈ chunks, GoodChunk c ∧ c.token_count = sumTokens c.sentences) :
    ∀ c ∈ chunkPage fn dt yr rg chunks pi,
      GoodChunk c ∧ c.token_count = sumTokens c.sentences := by
  obtain ⟨h1, h2, h3⟩ := chunkLoop_good fn dt yr rg pi.page pi.sentences
    chunks [] 0 h rfl (Or.inl (by simp [sumTokens, CHUNK_SIZE_TOKENS]))
  simp only [chunkPage]
  split
  · intro c hc
    rcases List.mem_append.mp hc with hm | hm
    · exact h1 c hm
    · simp only [List.mem_singleton] at hm
      subst hm
      exact ⟨goodChunk_of_bufferOk fn dt yr rg pi.page _ _ h3, rfl⟩
  · exact h1

theorem chunkPagesGo_good (fn dt : String) (yr : Option String)
    (rg : List String) (ps : List PageInfo) :
    ∀ chunks : List Chunk,
      (∀ c ∈ chunks, GoodChunk c ∧ c.token_count = sumTokens c.sentences) →
      ∀ c ∈ chunkPagesGo fn dt yr rg ps chunks,
        GoodChunk c ∧ c.token_count = sumTokens c.sentences := by
  induction ps with
  | nil => intro chunks h; exact h
  | cons p rest ih =>
    intro chunks h
    exact ih _ (chunkPage_good fn dt yr rg chunks p h)

/-- Claim C3, amended: every emitted passage's token count is the sum of its
sentences' counts, and is at most the 600-token window — except passages
whose final sentence alone exceeds 500 tokens (window minus overlap); such a
passage is that oversized sentence preceded only by carried-over overlap
sentences totalling at most 100 tokens, so it need not be exactly one
sentence long. -/
theorem token_budget_with_oversized_tail (doc : Document) (c : Chunk)
    (hc : c ∈ chunkDocument doc) :
    c.token_count = sumTokens c.sentences ∧
    (c.token_count ≤ CHUNK_SIZE_TOKENS ∨
      ∃ pre s, c.sentences = pre ++ [s] ∧
        sumTokens pre ≤ CHUNK_OVERLAP_TOKENS ∧
        CHUNK_SIZE_TOKENS - CHUNK_OVERLAP_TOKENS < s.tokens) := by
  have h := chunkPagesGo_good doc.filename (extractDocType doc.filename)
    (extractYear doc.filename doc.full_text) (extractRegions doc.full_text)
    doc.pages [] (by intro c hc0; cases hc0) c hc
  exact ⟨h.2, h.1⟩

/-- One page with sentence token counts 50, 700, 50: the middle chunk
carries the 50-token overlap sentence plus the 700-token sentence. -/
def docTok : Document :=
  ⟨"plain.pdf", [⟨1, [⟨"alpha.", 50⟩, ⟨"beta.", 700⟩, ⟨"gamma.", 50⟩]⟩],
    "no metadata"⟩

/-- Counterexample to claim C3 as stated: chunk_document emits a passage of
750 tokens — above the 600-token window — that is two sentences long, not
the claimed exactly-one-sentence oversized passage. -/
theorem token_budget_two_sentence_cex :
    ∃ c ∈ chunkDocument docTok,
      CHUNK_SIZE_TOKENS < c.token_count ∧ c.sentences.length = 2 := by
  decide

/-- Witness for C3: the amended budget statement at the oversized
two-sentence chunk of docTok. -/
theorem token_budget_with_oversized_tail_witness :
    (∃ c ∈ chunkDocument docTok, c.token_count = 750) ∧
    ∀ c ∈ chunkDocument docTok,
      c.token_count = sumTokens c.sentences ∧
      (c.token_count ≤ CHUNK_SIZE_TOKENS ∨
        ∃ pre s, c.sentences = pre ++ [s] ∧
          sumTokens pre ≤ CHUNK_OVERLAP_TOKENS ∧
          CHUNK_SIZE_TOKENS - CHUNK_OVERLAP_TOKENS < s.tokens) :=
  ⟨by decide, fun c hc => token_budget_with_oversized_tail docTok c hc⟩

/-! ## Claim C4 — overlap between consecutive passages of a page -/

theorem overlapGo_structure (l : List Sentence) :
    ∀ (acc : List Sentence) (tks : Nat),
      ∃ t, overlapGo l acc tks = t ++ acc ∧ t.reverse <+: l := by
  induction l with
  | nil => intro acc tks; exact ⟨[], rfl, by simp⟩
  | cons s rest ih =>
    intro acc tks
    rw [overlapGo]
    split
    · exact ⟨[], rfl, by simp⟩
    · obtain ⟨t, ht, hpre⟩ := ih (s :: acc) (tks + s.tokens)
      refine ⟨t ++ [s], ?_, ?_⟩
      · rw [ht, List.append_assoc]
        rfl
      · obtain ⟨u, hu⟩ := hpre
        refine ⟨u, ?_⟩
        rw [List.reverse_append, List.reverse_singleton, List.singleton_append,
          List.cons_append, hu]

theorem overlapTail_suffix (ss : List Sentence) : overlapTail ss <:+ ss := by
  obtain ⟨t, ht, hpre⟩ := overlapGo_structure ss.reverse [] 0
  rw [overlapTail, ht, List.append_nil]
  exact List.reverse_prefix.mp hpre

theorem overlapTail_ne_nil (pre : List Sentence) (s : Sentence)
    (hs : s.tokens ≤ CHUNK_OVERLAP_TOKENS) :
    overlapTail (pre ++ [s]) ≠ [] := by
  rw [overlapTail, List.reverse_append, List.reverse_singleton,
    List.singleton_append, overlapGo]
  rw [if_neg (by omega)]
  obtain ⟨t, ht, -⟩ := overlapGo_structure pre.reverse [s] (0 + s.tokens)
  rw [ht]
  simp

theorem last_mem_of_suffix (ov pre : List Sentence) (s : Sentence)
    (hsuf : ov <:+ pre ++ [s]) (hne : ov ≠ []) : s ∈ ov := by
  obtain ⟨u, hu⟩ := hsuf
  have hgl : ov.getLast? = some (ov.getLast hne) := List.getLast?_eq_getLast ov hne
  have h2 := congrArg List.getLast? hu
  rw [List.getLast?_append, List.getLast?_concat, hgl] at h2
  have h3 : ov.getLast hne = s := by simpa using h2
  exact h3 ▸ List.getLast_mem hne

/-- The overlap of one emitted passage is carried verbatim into the head of
the next. -/
def overlapChain (c1 c2 : Chunk) : Prop :=
  overlapTail c1.sentences <+: c2.sentences

/-- Consecutive chunks from the same page satisfy overlapChain. -/
def pageAdj (c1 c2 : Chunk) : Prop := c1.page = c2.page → overlapChain c1 c2

/-- Each chunk of the list starts with its predecessor's overlap window,
starting from the seed buffer; the final seed flows into the trailing
buffer. -/
def chainFrom (seed : List Sentence) : List Chunk → List Sentence → Prop
  | [], cur => seed <+: cur
  | c :: cs, cur => seed <+: c.sentences ∧ chainFrom (overlapTail c.sentences) cs cur

theorem chainFrom_weaken (seed1 seed2 : List Sentence) (l : List Chunk)
    (cur : List Sentence) (hp : seed1 <+: seed2) :
    chainFrom seed2 l cur → chainFrom seed1 l cur := by
  cases l with
  | nil => exact fun h => hp.trans h
  | cons c cs => exact fun h => ⟨hp.trans h.1, h.2⟩

theorem chunkLoop_chain (fn dt : String) (yr : Option String)
    (rg : List String) (pg : Nat) (ss : List Sentence) :
    ∀ (chunks : List Chunk) (cur : List Sentence) (curTok : Nat),
      ∃ new,
        (chunkLoop fn dt yr rg pg ss chunks cur curTok).1 = chunks ++ new ∧
        (∀ c ∈ new, c.page = pg ∧ c.sentences ≠ []) ∧
        chainFrom cur new (chunkLoop fn dt yr rg pg ss chunks cur curTok).2.1 ∧
        ((new ≠ [] ∨ cur ≠ []) →
          (chunkLoop fn dt yr rg pg ss chunks cur curTok).2.1 ≠ []) := by
  induction ss with
  | nil =>
    intro chunks cur curTok
    refine ⟨[], by simp [chunkLoop], by simp, ?_, ?_⟩
    · show chainFrom cur [] cur
      exact List.prefix_rfl
    · intro h
      rcases h with h | h
      · exact absurd rfl h
      · exact h
  | cons s rest ih =>
    intro chunks cur curTok
    simp only [chunkLoop]
    split
    · next hcond =>
      obtain ⟨new', h1, h2, h3, h4⟩ := ih
        (chunks ++ [mkChunk fn dt yr rg pg chunks.length cur])
        (overlapTail cur ++ [s]) (sumTokens (overlapTail cur) + s.tokens)
      refine ⟨mkChunk fn dt yr rg pg chunks.length cur :: new', ?_, ?_, ?_, ?_⟩
      · rw [h1, List.append_assoc]
        rfl
      · intro c hc
        rcases List.mem_cons.mp hc with h | h
        · subst h
          exact ⟨rfl, hcond.2⟩
        · exact h2 c h
      · exact ⟨List.prefix_rfl,
          chainFrom_weaken _ _ _ _ (List.prefix_append _ _) h3⟩
      · intro _
        exact h4 (Or.inr (by simp))
    · next hcond =>
      obtain ⟨new', h1, h2, h3, h4⟩ := ih chunks (cur ++ [s]) (curTok + s.tokens)
      refine ⟨new', h1, h2,
        chainFrom_weaken _ _ _ _ (List.prefix_append _ _) h3, ?_⟩
      intro _
      exact h4 (Or.inr (by simp))

theorem chain'_append_of_chainFrom (l : List Chunk) :
    ∀ (seed cur : List Sentence) (cfin : Chunk),
      chainFrom seed l cur → cfin.sentences = cur →
      List.Chain' overlapChain (l ++ [cfin]) := by
  induction l with
  | nil => intro seed cur cfin _ _; simp
  | cons c cs ih =>
    intro seed cur cfin h hfin
    obtain ⟨h1, h2⟩ := h
    rw [List.cons_append]
    refine List.chain'_cons'.mpr ⟨?_, ih _ _ _ h2 hfin⟩
    intro y hy
    rcases cs with _ | ⟨c2, cs'⟩
    · simp only [List.nil_append, List.head?_cons, Option.mem_def,
        Option.some.injEq] at hy
      subst hy
      show overlapTail c.sentences <+: cfin.sentences
      rw [hfin]
      exact h2
    · simp only [List.cons_append, List.head?_cons, Option.mem_def,
        Option.some.injEq] at hy
      subst hy
      exact h2.1

theorem chunkPage_chain (fn dt : String) (yr : Option String)
    (rg : List String) (chunks : List Chunk) (pi : PageInfo) :
    ∃ new, chunkPage fn dt yr rg chunks pi = chunks ++ new ∧
      (∀ c ∈ new, c.page = pi.page ∧ c.sentences ≠ []) ∧
      List.Chain' overlapChain new := by
  obtain ⟨new, h1, h2, h3, h4⟩ := chunkLoop_chain fn dt yr rg pi.page
    pi.sentences chunks [] 0
  simp only [chunkPage]
  split
  · next hcur =>
    refine ⟨new ++ [mkChunk fn dt yr rg pi.page
      (chunkLoop fn dt yr rg pi.page pi.sentences chunks [] 0).1.length
      (chunkLoop fn dt yr rg pi.page pi.sentences chunks [] 0).2.1],
      ?_, ?_, ?_⟩
    · rw [h1, List.append_assoc]
    · intro c hc
      rcases List.mem_append.mp hc with h | h
      · exact h2 c h
      · simp only [List.mem_singleton] at h
        subst h
        exact ⟨rfl, hcur⟩
    · exact chain'_append_of_chainFrom new [] _ _ h3 rfl
  · next hcur =>
    have hnew : new = [] := by
      by_contra hne
      exact hcur (h4 (Or.inl hne))
    refine ⟨[], by rw [h1, hnew], by simp, List.chain'_nil⟩

theorem chunkPagesGo_chain (fn dt : String) (yr : Option String)
    (rg : List String) (ps : List PageInfo) :
    ∀ (chunks : List Chunk) (seen : List Nat),
      (ps.map PageInfo.page).Nodup →
      (∀ p ∈ ps, p.page ∉ seen) →
      (∀ c ∈ chunks, c.page ∈ seen) →
      List.Chain' pageAdj chunks →
      List.Chain' pageAdj (chunkPagesGo fn dt yr rg ps chunks) := by
  induction ps with
  | nil => intro chunks seen _ _ _ hch; exact hch
  | cons p rest ih =>
    intro chunks seen hnd hfresh hmem hch
    obtain ⟨new, h1, h2, h3⟩ := chunkPage_chain fn dt yr rg chunks p
    rw [chunkPagesGo]
    rw [List.map_cons, List.nodup_cons] at hnd
    refine ih (chunkPage fn dt yr rg chunks p) (p.page :: seen) hnd.2 ?_ ?_ ?_
    · intro p' hp' hin
      rcases List.mem_cons.mp hin with h | h
      · exact hnd.1 (h ▸ List.mem_map_of_mem PageInfo.page hp')
      · exact hfresh p' (List.mem_cons_of_mem _ hp') h
    · intro c hc
      rw [h1] at hc
      rcases List.mem_append.mp hc with h | h
      · exact List.mem_cons_of_mem _ (hmem c h)
      · rw [(h2 c h).1]
        exact List.mem_cons_self _ _
    · rw [h1]
      refine List.Chain'.append hch (h3.imp ?_) ?_
      · intro c1 c2 hoc
        exact fun _ => hoc
      · intro x hx y hy hpage
        exfalso
        have hx' : x ∈ chunks :=
          List.mem_of_getLast?_eq_some (Option.mem_def.mp hx)
        have hy' : y ∈ new := List.mem_of_mem_head? hy
        have hxs : x.page ∈ seen := hmem x hx'
        have hys : y.page = p.page := (h2 y hy').1
        have hps : p.page ∉ seen := hfresh p (List.mem_cons_self _ _)
        rw [hpage, hys] at hxs
        exact hps hxs

theorem chunkDocument_chain (doc : Document)
    (hnd : (doc.pages.map PageInfo.page).Nodup) :
    List.Chain' pageAdj (chunkDocument doc) :=
  chunkPagesGo_chain doc.filename (extractDocType doc.filename)
    (extractYear doc.filename doc.full_text) (extractRegions doc.full_text)
    doc.pages [] [] hnd (by simp) (by simp) List.chain'_nil

/-- Claim C4, amended: for consecutive passages n and n+1 of the same page
(page numbers pairwise distinct in the document), if the final sentence of
passage n fits the overlap budget, the two passages share that sentence —
it is in passage n's tail and passage n+1's head.  (When passage n's final
sentence alone exceeds the overlap budget, the overlap window is empty and
nothing is shared, so the budget-nonzero hypothesis of the original claim
does not suffice.) -/
theorem overlap_share_of_small_last (doc : Document)
    (hnd : (doc.pages.map PageInfo.page).Nodup) (n : Nat)
    (h : n + 1 < (chunkDocument doc).length)
    (hpage : (chunkDocument doc)[n].page = (chunkDocument doc)[n + 1].page)
    (s : Sentence)
    (hlast : (chunkDocument doc)[n].sentences.getLast? = some s)
    (hs : s.tokens ≤ CHUNK_OVERLAP_TOKENS) :
    s ∈ (chunkDocument doc)[n].sentences ∧
    s ∈ (chunkDocument doc)[n + 1].sentences := by
  have hchain := chunkDocument_chain doc hnd
  have hrel := List.chain'_iff_get.mp hchain n (by omega)
  have hoc : overlapTail (chunkDocument doc)[n].sentences <+:
      (chunkDocument doc)[n + 1].sentences := by
    apply hrel
    exact hpage
  obtain ⟨pre, hdec⟩ := List.getLast?_eq_some_iff.mp hlast
  have hne : overlapTail (chunkDocument doc)[n].sentences ≠ [] := by
    rw [hdec]
    exact overlapTail_ne_nil pre s hs
  have hmem : s ∈ overlapTail (chunkDocument doc)[n].sentences := by
    refine last_mem_of_suffix _ pre s ?_ hne
    rw [← hdec]
    exact overlapTail_suffix _
  exact ⟨List.mem_of_getLast?_eq_some hlast, hoc.subset hmem⟩

def sOv1 : Sentence := ⟨"one.", 550⟩

def sOv2 : Sentence := ⟨"two.", 150⟩

def sOv3 : Sentence := ⟨"three.", 100⟩

/-- One page with sentence token counts 550, 150, 100: the 550-token final
sentence of the first chunk exceeds the overlap budget, so the overlap
window is empty. -/
def docOv : Document := ⟨"plain.pdf", [⟨1, [sOv1, sOv2, sOv3]⟩], "x"⟩

/-- Counterexample to claim C4 as stated: a page yields two consecutive
passages (the first not page-final) with a non-zero overlap budget, yet they
share no sentence — the first passage's only sentence exceeds the overlap
budget, so the overlap walk keeps nothing. -/
theorem overlap_share_cex :
    CHUNK_OVERLAP_TOKENS ≠ 0 ∧
    (chunkDocument docOv).map Chunk.page = [1, 1] ∧
    (chunkDocument docOv).map Chunk.sentences = [[sOv1], [sOv2, sOv3]] ∧
    ∀ s ∈ ([sOv1] : List Sentence), s ∉ ([sOv2, sOv3] : List Sentence) := by
  exact ⟨by decide, by decide, by decide, by decide⟩

def sW1 : Sentence := ⟨"p.", 300⟩

def sW2 : Sentence := ⟨"q.", 80⟩

def sW3 : Sentence := ⟨"r.", 250⟩

/-- One page with sentence token counts 300, 80, 250: the 80-token sentence
is kept as overlap and shared between the two chunks. -/
def docOvW : Document := ⟨"plain.pdf", [⟨1, [sW1, sW2, sW3]⟩], "x"⟩

/-- Witness for C4: the amended overlap-sharing statement at a concrete
two-chunk page whose first chunk ends in an 80-token sentence. -/
theorem overlap_share_of_small_last_witness :
    ((docOvW.pages.map PageInfo.page).Nodup ∧
      1 < (chunkDocument docOvW).length ∧
      (chunkDocument docOvW)[0].page = (chunkDocument docOvW)[1].page ∧
      (chunkDocument docOvW)[0].sentences.getLast? = some sW2 ∧
      sW2.tokens ≤ CHUNK_OVERLAP_TOKENS) ∧
    (sW2 ∈ (chunkDocument docOvW)[0].sentences ∧
      sW2 ∈ (chunkDocument docOvW)[1].sentences) :=
  ⟨⟨by decide, by decide, by decide, by decide, by decide⟩,
    overlap_share_of_small_last docOvW (by decide) 0 (by decide) (by decide)
      sW2 (by decide) (by decide)⟩

end Spec2Proof
